import Mathlib

/-!
Verification of the `file-categorizer` Electron main process (`src/main/main.js`),
its renderer (`src/renderer/js/renderer.js`), and the spec-described Python
backend (executor, undo manager, similarity engine) against the repository
specification.

Platform functions (`JSON.stringify`, `JSON.parse`, process spawning) are
modelled as explicit function parameters: the code under verification never
inspects their implementation, only composes them.
-/

/-- A JSON value tree, standing in for the JavaScript values that cross the
IPC boundary (`modes` arrays, `options` objects, backend results). -/
inductive Json where
  | null
  | bool (b : Bool)
  | num (n : Int)
  | str (s : String)
  | arr (elems : List Json)
  | obj (fields : List (String × Json))

/-- The argument object the renderer passes to the `simulate` and `categorize`
IPC handlers: `{folderPath, modes, advancedOptions}`; `advancedOptions` may be
absent (JS `undefined`), in which case the handlers substitute `{}`. -/
structure IpcOptions where
  folderPath : String
  modes : Json
  advancedOptions : Option Json

/-- Command line built by the `simulate` IPC handler (main.js lines 159-173):
`['--simulate', '--folder', options.folderPath, '--modes',
JSON.stringify(options.modes), '--options',
JSON.stringify(options.advancedOptions || {}), '--logs-path', getLogsPath()]`.
The platform serializer `JSON.stringify` is the `stringify` parameter. -/
def simulateArgs (stringify : Json → String) (logsPath : String) (o : IpcOptions) :
    List String :=
  ["--simulate",
   "--folder", o.folderPath,
   "--modes", stringify o.modes,
   "--options", stringify (o.advancedOptions.getD (Json.obj [])),
   "--logs-path", logsPath]

/-- Command line built by the `categorize` IPC handler (main.js lines 175-189);
identical construction to `simulateArgs` except the leading `--execute` flag. -/
def categorizeArgs (stringify : Json → String) (logsPath : String) (o : IpcOptions) :
    List String :=
  ["--execute",
   "--folder", o.folderPath,
   "--modes", stringify o.modes,
   "--options", stringify (o.advancedOptions.getD (Json.obj [])),
   "--logs-path", logsPath]

/-- The `{success:false, error: message}` object every IPC handler returns
from its catch block. -/
def errorResponse (msg : String) : Json :=
  Json.obj [("success", Json.bool false), ("error", Json.str msg)]

/-- The `scan-folder` IPC handler (main.js lines 150-157): awaits
`runPython(['--scan', folderPath])` and wraps a rejection into
`{success:false, error}`. The backend invocation is the `run` parameter;
`Except.error` is a rejected promise carrying `error.message`. -/
def scanFolderHandler (run : List String → Except String Json) (folderPath : String) :
    Json :=
  match run ["--scan", folderPath] with
  | Except.ok result => result
  | Except.error msg => errorResponse msg

/-- The `simulate` IPC handler (main.js lines 159-173). -/
def simulateHandler (run : List String → Except String Json)
    (stringify : Json → String) (logsPath : String) (o : IpcOptions) : Json :=
  match run (simulateArgs stringify logsPath o) with
  | Except.ok result => result
  | Except.error msg => errorResponse msg

/-- The `categorize` IPC handler (main.js lines 175-189). -/
def categorizeHandler (run : List String → Except String Json)
    (stringify : Json → String) (logsPath : String) (o : IpcOptions) : Json :=
  match run (categorizeArgs stringify logsPath o) with
  | Except.ok result => result
  | Except.error msg => errorResponse msg

/-- The `undo` IPC handler (main.js lines 191-199): awaits
`runPython(['--undo', '--logs-path', getLogsPath()])`. -/
def undoHandler (run : List String → Except String Json) (logsPath : String) : Json :=
  match run ["--undo", "--logs-path", logsPath] with
  | Except.ok result => result
  | Except.error msg => errorResponse msg

/-- The filename filter of the `get-last-operation` handler (main.js line 205):
`f.startsWith('operation_') && f.endsWith('.json')`. -/
def matchesLogPattern (f : String) : Bool :=
  ("operation_".toList.isPrefixOf f.toList) && (".json".toList.isSuffixOf f.toList)

/-- The `get-last-operation` IPC handler (main.js lines 201-218).
`listing` is the outcome of `fs.readdirSync(logsPath)` (`none` when it throws);
`readParse` is `JSON.parse(fs.readFileSync(...))`, `none` when either throws.
The handler filters to `operation_*.json`, sorts ascending (JS default sort is
lexicographic), reverses, and reads the first file; every failure path
returns `null`. -/
def getLastOperation (listing : Option (List String))
    (readParse : String → Option Json) : Option Json :=
  match listing with
  | none => none
  | some files =>
    match (List.insertionSort (fun a b : String => a ≤ b)
        (files.filter (fun f => matchesLogPattern f))).reverse with
    | [] => none
    | f :: _ => readParse f

/-- Split a character list at every occurrence of `c`, like JS
`string.split('\n')` (keeps empty segments, including a trailing one). -/
def splitChar (c : Char) : List Char → List (List Char)
  | [] => [[]]
  | x :: xs =>
    match splitChar c xs with
    | [] => [[]]
    | seg :: segs => if x = c then [] :: seg :: segs else (x :: seg) :: segs

/-- The lines of one stdout `data` chunk: `data.toString().split('\n')`
(main.js line 84). -/
def chunkLines (chunk : String) : List String :=
  (splitChar '\n' chunk.toList).map List.asString

/-- One stdout chunk's progress handling (main.js lines 83-93): the chunk's
lines are scanned in order; a line starting with `PROGRESS:` has the prefix
stripped (`line.replace('PROGRESS:','')` on a line that starts with it) and
is parsed; the parsed value is sent to the renderer as a `progress-update`
event.  The `try` block wraps the whole loop, so the first `PROGRESS:` line
whose JSON fails to parse throws out of the `forEach` and the remaining
lines of this chunk are skipped.  `parse` is the platform `JSON.parse`
(`none` = throws). -/
def progressLines (parse : String → Option Json) : List String → List Json
  | [] => []
  | line :: rest =>
    if "PROGRESS:".toList.isPrefixOf line.toList then
      match parse (List.asString (line.toList.drop 9)) with
      | some j => j :: progressLines parse rest
      | none => []
    else progressLines parse rest

/-- All `progress-update` events emitted while a backend run's stdout arrives
as the given sequence of `data` chunks. -/
def stdoutEmissions (parse : String → Option Json) (chunks : List String) : List Json :=
  (chunks.map (fun c => progressLines parse (chunkLines c))).flatten

/-- Spec-side prediction of one chunk's forwarded events, following the
amended forwarding property's words: of the lines preceding the first
`PROGRESS:`-prefixed line whose JSON fails to parse (all lines when none
fails), the parses of the `PROGRESS:` ones, in order.  To be compared with
`progressLines`, which embeds the code. -/
def forwardedSpec (parse : String → Option Json) (lines : List String) : List Json :=
  (lines.takeWhile
      (fun l => !("PROGRESS:".toList.isPrefixOf l.toList) ||
        (parse (List.asString (l.toList.drop 9))).isSome)).filterMap
    (fun l =>
      if "PROGRESS:".toList.isPrefixOf l.toList then
        parse (List.asString (l.toList.drop 9))
      else none)

/-- Split a character list at the first occurrence of the pattern `sep`,
returning the part before and the part after (pattern excluded); `none` when
the pattern does not occur. -/
def findSplit (sep : List Char) : List Char → Option (List Char × List Char)
  | [] => if sep.isEmpty then some ([], []) else none
  | x :: xs =>
    if sep.isPrefixOf (x :: xs) then some ([], (x :: xs).drop sep.length)
    else
      match findSplit sep xs with
      | some (pre, post) => some (x :: pre, post)
      | none => none

/-- The capture group of `stdout.match(/RESULT:([\s\S]*?)(?:$|PROGRESS:)/)`
(main.js line 109): the text after the first `RESULT:` marker, cut at the
first following `PROGRESS:` marker if any (the lazy quantifier stops at the
earliest alternative), otherwise running to the end of stdout. -/
def extractResult (stdout : String) : Option String :=
  match findSplit ("RESULT:".toList) stdout.toList with
  | none => none
  | some (_, tail) =>
    match findSplit ("PROGRESS:".toList) tail with
    | some (capture, _) => some (List.asString capture)
    | none => some (List.asString tail)

/-- The suffix of the character list starting at its last opening brace, or
`none` when no brace occurs. -/
def suffixFromLastBrace : List Char → Option (List Char)
  | [] => none
  | x :: xs =>
    match suffixFromLastBrace xs with
    | some r => some r
    | none => if x = Char.ofNat 123 then some (x :: xs) else none

/-- `stdout.substring(stdout.lastIndexOf('\x7b'))` guarded by
`lastIndexOf !== -1` (main.js lines 114-116): the substring from the last
opening brace to the end. -/
def lastBraceSuffix (stdout : String) : Option String :=
  (suffixFromLastBrace stdout.toList).map List.asString

/-- Strip leading and trailing whitespace, like JS `String.prototype.trim`. -/
def trimChars (l : List Char) : List Char :=
  ((l.dropWhile Char.isWhitespace).reverse.dropWhile Char.isWhitespace).reverse

/-- The `close` handler of `runPython` (main.js lines 104-128), computing the
promise outcome from the exit code and the accumulated stdout/stderr text.
Exit code 0: parse the `RESULT:` capture; failing that, parse from the last
opening brace; failing that resolve `{success:true, message: stdout}`; a
parse exception is caught and resolves `{success:true, raw: stdout}`.
Nonzero exit rejects with stderr, or a fallback message when stderr is empty
(JS `stderr || ...` — empty string is falsy). -/
def closeHandler (parse : String → Option Json) (code : Int)
    (stdout stderr : String) : Except String Json :=
  if code = 0 then
    Except.ok
      (match extractResult stdout with
       | some capture =>
         match parse (List.asString (trimChars capture.toList)) with
         | some j => j
         | none => Json.obj [("success", Json.bool true), ("raw", Json.str stdout)]
       | none =>
         match lastBraceSuffix stdout with
         | some jsonStr =>
           match parse jsonStr with
           | some j => j
           | none => Json.obj [("success", Json.bool true), ("raw", Json.str stdout)]
         | none => Json.obj [("success", Json.bool true), ("message", Json.str stdout)])
  else
    Except.error
      (if stderr = "" then "Python process exited with code " ++ toString code
       else stderr)

/-- One full `runPython` run observed at its boundary: stdout arrives as
`chunks` (accumulated into the `stdout` variable by the data handler,
independently of progress parsing), the process exits with `code`, and the
promise settles via `closeHandler`.  The pair is (progress events sent,
promise outcome); `progressParse` and `resultParse` are the two uses of the
platform `JSON.parse`. -/
def runPythonOutcome (progressParse resultParse : String → Option Json)
    (chunks : List String) (code : Int) (stderr : String) :
    List Json × Except String Json :=
  (stdoutEmissions progressParse chunks,
   closeHandler resultParse code (String.join chunks) stderr)

/-- The renderer's progress DOM state: `progressFill.style.width` and
`progressText.textContent` (renderer.js lines 52-54). -/
structure ProgressDisplay where
  width : String
  text : String

/-- A `progress-update` payload as the renderer sees it: `percent` may be
absent (JS `undefined`), `message` may be absent or empty. -/
structure ProgressData where
  percent : Option Int
  message : Option String

/-- The renderer's `onProgressUpdate` callback (renderer.js lines 114-121):
`if (data.percent !== undefined) progressFill.style.width = data.percent+'%';
if (data.message) progressText.textContent = data.message;` — note the
truthiness test on `message`, under which an empty string changes nothing. -/
def onProgressUpdate (dom : ProgressDisplay) (data : ProgressData) : ProgressDisplay :=
  let dom1 :=
    match data.percent with
    | some p => { dom with width := toString p ++ "%" }
    | none => dom
  match data.message with
  | some m => if m = "" then dom1 else { dom1 with text := m }
  | none => dom1

/-- Events that mutate the main process's shared `pythonProcess` reference
(main.js lines 7, 73, 104-105, 130-131): `runPython` assigns the freshly
spawned child; the child's `close` and `error` handlers reset it to null. -/
inductive ProcEvent where
  | spawn (pid : Nat)
  | closed
  | errored

/-- The `pythonProcess` reference after one event. -/
def stepProc (_st : Option Nat) (e : ProcEvent) : Option Nat :=
  match e with
  | ProcEvent.spawn pid => some pid
  | ProcEvent.closed => none
  | ProcEvent.errored => none

/-- What the `cancel-operation` handler answers. -/
inductive CancelResult where
  | killed (pid : Nat)
  | noOperation

/-- The `cancel-operation` IPC handler (main.js lines 220-227): with a live
reference it kills that process, nulls the reference and returns
`{success:true}`; otherwise it returns
`{success:false, message:'No operation running'}` without killing anything.
Result: (reference afterwards, response). -/
def cancelOperation : Option Nat → Option Nat × CancelResult
  | none => (none, CancelResult.noOperation)
  | some pid => (none, CancelResult.killed pid)

/-- The most recently spawned process over an event history, ignoring
close/error events. -/
def lastSpawned (trace : List ProcEvent) : Option Nat :=
  trace.foldl
    (fun acc e =>
      match e with
      | ProcEvent.spawn p => some p
      | _ => acc)
    none

/-- Modelled from the spec: one `OperationEntry` of the Python backend's
`OperationLog` (spec section 3; the backend `src/python` files are not in the
sources).  A path is modelled as a (folder, name) pair; `source` is
(srcFolder, srcName), `destination` is (dstFolder, dstName). -/
structure MoveEntry where
  srcFolder : String
  srcName : String
  dstFolder : String
  dstName : String
deriving DecidableEq

/-- The source path of an entry. -/
def MoveEntry.src (e : MoveEntry) : String × String := (e.srcFolder, e.srcName)

/-- The destination path of an entry. -/
def MoveEntry.dst (e : MoveEntry) : String × String := (e.dstFolder, e.dstName)

/-- Modelled from the spec: the filesystem state the Executor and UndoManager
act on — the set of file paths (folder, name) and the set of existing
folders. -/
structure FS where
  files : Finset (String × String)
  dirs : Finset String
deriving DecidableEq

/-- Modelled from the spec (section 4.5): one Executor step — create the
destination folder if absent (idempotent) and move the record. -/
def applyEntry (fs : FS) (e : MoveEntry) : FS :=
  { files := insert e.dst (fs.files.erase e.src),
    dirs := insert e.dstFolder fs.dirs }

/-- Modelled from the spec (section 4.5): the Executor applies a plan's
entries in order, logging each and recording which destination folders it
created (those absent when their entry ran).  Returns the final filesystem
and the created-folder list. -/
def executeMoves (fs : FS) : List MoveEntry → FS × List String
  | [] => (fs, [])
  | e :: es =>
    ((executeMoves (applyEntry fs e) es).1,
     (if e.dstFolder ∈ fs.dirs then [] else [e.dstFolder]) ++
       (executeMoves (applyEntry fs e) es).2)

/-- Modelled from the spec (section 4.6): one UndoManager step — move a
logged entry's destination back to its original source path. -/
def revertEntry (fs : FS) (e : MoveEntry) : FS :=
  { fs with files := insert e.src (fs.files.erase e.dst) }

/-- Modelled from the spec (section 4.6): `undo()` replays the log's entries
in reverse order (last-moved-first), moving each destination back to its
source, then removes every folder the operation created that is now empty. -/
def undoMoves (fs : FS) (log : List MoveEntry) (created : List String) : FS :=
  let fs1 := log.reverse.foldl revertEntry fs
  { fs1 with
    dirs := fs1.dirs.filter
      (fun d => ¬(d ∈ created ∧ fs1.files.filter (fun p => p.1 = d) = ∅)) }

/-- Modelled from the spec (section 5): the Executor's move loop with
cooperative cancellation — before each entry (the entry counter is `i`) it
checks the cancellation signal and stops accepting new moves once it is set;
an entry, once begun, is applied atomically (a move is never half-applied).
Returns the final filesystem and the entries actually applied (the log). -/
def execCancellable (fs : FS) : List MoveEntry → (Nat → Bool) → Nat → FS × List MoveEntry
  | [], _, _ => (fs, [])
  | e :: es, cancelled, i =>
    if cancelled i then (fs, [])
    else
      ((execCancellable (applyEntry fs e) es cancelled (i + 1)).1,
       e :: (execCancellable (applyEntry fs e) es cancelled (i + 1)).2)

/-- The index of the first cancellation check that fires among the next `n`
checks starting at check `i`, or `i + n` when none fires. -/
def firstCancel (cancelled : Nat → Bool) : Nat → Nat → Nat
  | i, 0 => i
  | i, n + 1 => if cancelled i then i else firstCancel cancelled (i + 1) n

/-- Helper for `levAux`: the edit distance from `a :: as` to the third
argument, where `levAs` computes distances from `as`.  Splitting the
recursion this way keeps both functions structurally recursive. -/
def lev1 (levAs : List Char → Nat) (a : Char) (as : List Char) : List Char → Nat
  | [] => as.length + 1
  | b :: bs =>
    if a = b then levAs bs
    else 1 + min (levAs (b :: bs)) (min (lev1 levAs a as bs) (levAs bs))

/-- Modelled from the spec (section 4.3): Levenshtein edit distance between
two character lists, the first of the SimilarityEngine's algorithms. -/
def levAux : List Char → List Char → Nat
  | [], bs => bs.length
  | a :: as, bs => lev1 (levAux as) a as bs

/-- Modelled from the spec (section 4.3): normalized Levenshtein similarity
`1 − distance / max(len(a), len(b))`, a score in [0,1]. -/
def levSim (a b : String) : Rat :=
  1 - (levAux a.toList b.toList : Rat) / ((max a.length b.length : Nat) : Rat)

/-- Modelled from the spec (section 4.3): the join test — the threshold is a
percentage compared against `score × 100`. -/
def joinOk (threshold score : Rat) : Prop := threshold ≤ score * 100

instance (threshold score : Rat) : Decidable (joinOk threshold score) := by
  unfold joinOk
  infer_instance

/-- A similarity cluster: its representative stem (its founder) and its
member stems in join order. -/
abbrev SimCluster : Type := String × List String

/-- Modelled from the spec (section 4.3): among the scores of the existing
cluster representatives, the index (and score) of the best cluster the new
stem may join — highest score at least the threshold, ties broken by the
earliest-created cluster — or `none` when no representative qualifies. -/
def bestIdx (threshold : Rat) : List Rat → Option (Nat × Rat)
  | [] => none
  | score :: rest =>
    match bestIdx threshold rest with
    | none =>
      if joinOk threshold score then some (0, score) else none
    | some (j, best) =>
      if joinOk threshold score ∧ best ≤ score then some (0, score)
      else some (j + 1, best)

/-- Append a stem to the members of the cluster at the given index. -/
def addToCluster (s : String) : List SimCluster → Nat → List SimCluster
  | [], _ => []
  | c :: cs, 0 => (c.1, c.2 ++ [s]) :: cs
  | c :: cs, n + 1 => c :: addToCluster s cs n

/-- Modelled from the spec (section 4.3): greedy clustering step — compare
the unclustered stem against every existing cluster representative, join the
best qualifying cluster, else start a new singleton cluster. -/
def insertStem (sim : String → String → Rat) (threshold : Rat)
    (clusters : List SimCluster) (s : String) : List SimCluster :=
  match bestIdx threshold (clusters.map (fun c => sim s c.1)) with
  | some (i, _) => addToCluster s clusters i
  | none => clusters ++ [(s, [s])]

/-- Modelled from the spec (section 4.3): greedy union-find clustering of the
file stems, processed in stable scan order. -/
def clusterStems (sim : String → String → Rat) (threshold : Rat)
    (stems : List String) : List SimCluster :=
  stems.foldl (insertStem sim threshold) []

/-- C1: for every fixed (folderPath, modes, options) — and any JSON
serializer and logs path, which both handlers share — the `simulate` and
`categorize` IPC handlers invoke the backend with identical command lines
(same folder, same serialized modes, same serialized options, same logs
path), differing only in the leading `--simulate` versus `--execute` flag. -/
theorem c1_simulate_categorize_args (stringify : Json → String)
    (logsPath : String) (o : IpcOptions) :
    (simulateArgs stringify logsPath o).head? = some "--simulate" ∧
    (categorizeArgs stringify logsPath o).head? = some "--execute" ∧
    (simulateArgs stringify logsPath o).tail =
      (categorizeArgs stringify logsPath o).tail :=
  ⟨rfl, rfl, rfl⟩

/-- C4: whenever the backend invocation rejects, each of the `scan-folder`,
`simulate`, `categorize` and `undo` IPC handlers returns
`{success:false, error: message}` instead of propagating the exception. -/
theorem c4_handlers_wrap_errors (run : List String → Except String Json)
    (stringify : Json → String) (logsPath folderPath : String)
    (o : IpcOptions) (msg : String) :
    (run ["--scan", folderPath] = Except.error msg →
      scanFolderHandler run folderPath = errorResponse msg) ∧
    (run (simulateArgs stringify logsPath o) = Except.error msg →
      simulateHandler run stringify logsPath o = errorResponse msg) ∧
    (run (categorizeArgs stringify logsPath o) = Except.error msg →
      categorizeHandler run stringify logsPath o = errorResponse msg) ∧
    (run ["--undo", "--logs-path", logsPath] = Except.error msg →
      undoHandler run logsPath = errorResponse msg) := by
  refine ⟨fun h => ?_, fun h => ?_, fun h => ?_, fun h => ?_⟩ <;>
    simp [scanFolderHandler, simulateHandler, categorizeHandler, undoHandler, h]

/-- Witness for C4 at a concrete always-rejecting backend. -/
theorem c4_handlers_wrap_errors_witness :
    ((fun _ : List String => (Except.error "boom" : Except String Json))
        ["--scan", "/f"] = Except.error "boom") ∧
    scanFolderHandler (fun _ => Except.error "boom") "/f" = errorResponse "boom" :=
  ⟨rfl,
   (c4_handlers_wrap_errors (fun _ => Except.error "boom") (fun _ => "[]")
       "/logs" "/f" ⟨"/f", Json.arr [], none⟩ "boom").1 rfl⟩

theorem foldl_stepProc_lastSpawned (trace : List ProcEvent) :
    ∀ (i j : Option Nat), (∀ p, i = some p → j = some p) →
      ∀ p, trace.foldl stepProc i = some p →
        trace.foldl
          (fun acc e =>
            match e with
            | ProcEvent.spawn q => some q
            | _ => acc) j = some p := by
  induction trace with
  | nil => intro i j hij p hp; exact hij p hp
  | cons e es ih =>
    intro i j hij p hp
    cases e with
    | spawn q =>
      exact ih (some q) (some q) (fun _ h => h) p hp
    | closed =>
      exact ih none j (fun _ h => by cases h) p hp
    | errored =>
      exact ih none j (fun _ h => by cases h) p hp

/-- C10: the main process tracks the in-flight backend run in the single
shared `pythonProcess` reference, which is reset to null by the `close` and
`error` handlers; `cancel-operation` with no live reference answers
`{success:false, message:'No operation running'}` without killing, and with a
live reference kills exactly the most recently spawned process and answers
`{success:true}`. -/
theorem c10_single_process_tracking (trace : List ProcEvent) :
    (∀ st : Option Nat,
      stepProc st ProcEvent.closed = none ∧ stepProc st ProcEvent.errored = none) ∧
    (trace.foldl stepProc none = none →
      cancelOperation (trace.foldl stepProc none) = (none, CancelResult.noOperation)) ∧
    (∀ pid : Nat, trace.foldl stepProc none = some pid →
      cancelOperation (trace.foldl stepProc none) = (none, CancelResult.killed pid) ∧
      lastSpawned trace = some pid) := by
  refine ⟨fun st => ⟨rfl, rfl⟩, fun h => by rw [h]; rfl, fun pid h => ⟨by rw [h]; rfl, ?_⟩⟩
  exact foldl_stepProc_lastSpawned trace none none (fun _ hp => by cases hp) pid h

/-- Witness for C10 on the trace spawn 1, close, spawn 2. -/
theorem c10_single_process_tracking_witness :
    ([ProcEvent.spawn 1, ProcEvent.closed, ProcEvent.spawn 2].foldl stepProc none
        = some 2) ∧
    (cancelOperation
        ([ProcEvent.spawn 1, ProcEvent.closed, ProcEvent.spawn 2].foldl stepProc none)
        = (none, CancelResult.killed 2) ∧
      lastSpawned [ProcEvent.spawn 1, ProcEvent.closed, ProcEvent.spawn 2] = some 2) :=
  ⟨rfl,
   (c10_single_process_tracking
       [ProcEvent.spawn 1, ProcEvent.closed, ProcEvent.spawn 2]).2.2 2 rfl⟩

/-- C3: `get-last-operation` returns the parsed contents of the
lexicographically greatest file matching `operation_*.json`, and returns
null — not an error — when the listing fails, when no file matches, or (via
the result `readParse m` being `none`) when that file cannot be read or
parsed. -/
theorem c3_get_last_operation (files : List String)
    (readParse : String → Option Json) :
    (getLastOperation none readParse = none) ∧
    (files.filter (fun f => matchesLogPattern f) = [] →
      getLastOperation (some files) readParse = none) ∧
    (files.filter (fun f => matchesLogPattern f) ≠ [] →
      ∃ m, m ∈ files.filter (fun f => matchesLogPattern f) ∧
        (∀ x ∈ files.filter (fun f => matchesLogPattern f), x ≤ m) ∧
        getLastOperation (some files) readParse = readParse m) := by
  refine ⟨rfl, fun h => ?_, fun h => ?_⟩
  · simp only [getLastOperation, h, List.insertionSort, List.reverse_nil]
  · set l := files.filter (fun f => matchesLogPattern f) with hl
    set sorted := List.insertionSort (fun a b : String => a ≤ b) l with hsorted
    have hperm : List.Perm sorted l := List.perm_insertionSort _ l
    have hsort : List.Sorted (fun a b : String => a ≤ b) sorted :=
      List.sorted_insertionSort _ l
    cases hrev : sorted.reverse with
    | nil =>
      exact absurd ((hperm.symm.trans (List.reverse_eq_nil_iff.mp hrev ▸
        List.Perm.refl sorted)).eq_nil) h
    | cons m rest =>
      have hdecomp : sorted = rest.reverse ++ [m] := by
        have := congrArg List.reverse hrev
        simpa using this
      refine ⟨m, ?_, ?_, ?_⟩
      · exact hperm.subset (hdecomp ▸ List.mem_append_right _ (List.mem_singleton_self m))
      · intro x hx
        have hxs : x ∈ sorted := hperm.mem_iff.mpr hx
        rw [hdecomp] at hxs hsort
        rcases List.mem_append.mp hxs with hx1 | hx2
        · exact (List.pairwise_append.mp hsort).2.2 x hx1 m (List.mem_singleton_self m)
        · exact le_of_eq (List.mem_singleton.mp hx2)
      · simp only [getLastOperation]
        rw [← hl, ← hsorted, hrev]

/-- Witness for C3 on a listing with two matching log files and a reader that
returns the chosen filename. -/
theorem c3_get_last_operation_witness :
    (["operation_2024.json", "notes.txt", "operation_2023.json"].filter
        (fun f => matchesLogPattern f) ≠ []) ∧
    (∃ m, m ∈ ["operation_2024.json", "notes.txt", "operation_2023.json"].filter
          (fun f => matchesLogPattern f) ∧
      (∀ x ∈ ["operation_2024.json", "notes.txt", "operation_2023.json"].filter
          (fun f => matchesLogPattern f), x ≤ m) ∧
      getLastOperation
          (some ["operation_2024.json", "notes.txt", "operation_2023.json"])
          (fun f => some (Json.str f)) = (fun f => some (Json.str f)) m) :=
  ⟨by decide,
   (c3_get_last_operation ["operation_2024.json", "notes.txt", "operation_2023.json"]
       (fun f => some (Json.str f))).2.2 (by decide)⟩

theorem closeHandler_zero_ok (parse : String → Option Json) (stdout stderr : String) :
    ∃ j, closeHandler parse 0 stdout stderr = Except.ok j := by
  unfold closeHandler
  rw [if_pos rfl]
  exact ⟨_, rfl⟩

/-- C9: a zero-exit backend always resolves, with the parsed `RESULT:`
capture when it parses, else the parsed trailing brace-to-end substring, else
a fabricated `{success:true, ...}` object carrying the raw stdout (`raw` on a
parse failure, `message` when stdout holds no brace); rejection happens
exactly on a nonzero exit code, carrying stderr or the fallback exit
message. -/
theorem c9_zero_exit_resolves (parse : String → Option Json)
    (stdout stderr : String) (code : Int) :
    (code = 0 → ∃ j, closeHandler parse code stdout stderr = Except.ok j) ∧
    (∀ capture j, code = 0 → extractResult stdout = some capture →
      parse (List.asString (trimChars capture.toList)) = some j →
      closeHandler parse code stdout stderr = Except.ok j) ∧
    (∀ jsonStr j, code = 0 → extractResult stdout = none →
      lastBraceSuffix stdout = some jsonStr → parse jsonStr = some j →
      closeHandler parse code stdout stderr = Except.ok j) ∧
    (∀ capture, code = 0 → extractResult stdout = some capture →
      parse (List.asString (trimChars capture.toList)) = none →
      closeHandler parse code stdout stderr =
        Except.ok (Json.obj [("success", Json.bool true), ("raw", Json.str stdout)])) ∧
    (∀ jsonStr, code = 0 → extractResult stdout = none →
      lastBraceSuffix stdout = some jsonStr → parse jsonStr = none →
      closeHandler parse code stdout stderr =
        Except.ok (Json.obj [("success", Json.bool true), ("raw", Json.str stdout)])) ∧
    (code = 0 → extractResult stdout = none → lastBraceSuffix stdout = none →
      closeHandler parse code stdout stderr =
        Except.ok (Json.obj [("success", Json.bool true), ("message", Json.str stdout)])) ∧
    (code ≠ 0 →
      closeHandler parse code stdout stderr =
        Except.error
          (if stderr = "" then "Python process exited with code " ++ toString code
           else stderr)) := by
  refine ⟨fun h => h ▸ closeHandler_zero_ok parse stdout stderr,
    fun capture j h h1 h2 => ?_, fun jsonStr j h h1 h2 h3 => ?_,
    fun capture h h1 h2 => ?_, fun jsonStr h h1 h2 h3 => ?_,
    fun h h1 h2 => ?_, fun h => ?_⟩ <;>
    subst_eqs <;> simp_all [closeHandler]

/-- Witness for C9: exit code 0 with a stdout whose `RESULT:` capture
parses. -/
theorem c9_zero_exit_resolves_witness :
    ((0 : Int) = 0) ∧
    (extractResult "RESULT: RES " = some " RES ") ∧
    ((fun s => if s = "RES" then some (Json.num 7) else none)
        (List.asString (trimChars (" RES " : String).toList)) = some (Json.num 7)) ∧
    closeHandler (fun s => if s = "RES" then some (Json.num 7) else none)
        0 "RESULT: RES " "" = Except.ok (Json.num 7) :=
  ⟨rfl, by decide, rfl,
   (c9_zero_exit_resolves (fun s => if s = "RES" then some (Json.num 7) else none)
       "RESULT: RES " "" 0).2.1 " RES " (Json.num 7) rfl (by decide) rfl⟩

/-- C7: the promise outcome of a backend run is computed solely from the exit
code and the accumulated stdout/stderr text: it does not depend on how (or
whether) the `PROGRESS:` lines parse, and with exit code 0 a malformed
progress line never causes a rejection — the run still resolves. -/
theorem c7_result_independent_of_progress
    (progressParse1 progressParse2 resultParse : String → Option Json)
    (chunks : List String) (code : Int) (stderr : String) :
    (runPythonOutcome progressParse1 resultParse chunks code stderr).2 =
      (runPythonOutcome progressParse2 resultParse chunks code stderr).2 ∧
    (code = 0 → ∃ j,
      (runPythonOutcome progressParse1 resultParse chunks code stderr).2 =
        Except.ok j) := by
  refine ⟨rfl, fun h => ?_⟩
  subst h
  simpa only [runPythonOutcome] using
    closeHandler_zero_ok resultParse (String.join chunks) stderr

/-- Witness for C7: a progress parser that fails on every line still leaves a
zero-exit run resolving. -/
theorem c7_result_independent_of_progress_witness :
    ((0 : Int) = 0) ∧
    (∃ j, (runPythonOutcome (fun _ => none)
        (fun s => if s = "RES" then some (Json.num 7) else none)
        ["PROGRESS:bad\n", "RESULT: RES "] 0 "").2 = Except.ok j) :=
  ⟨rfl,
   (c7_result_independent_of_progress (fun _ => none) (fun _ => some Json.null)
       (fun s => if s = "RES" then some (Json.num 7) else none)
       ["PROGRESS:bad\n", "RESULT: RES "] 0 "").2 rfl⟩

theorem progressLines_eq_forwarded (parse : String → Option Json) :
    ∀ lines : List String, progressLines parse lines = forwardedSpec parse lines := by
  intro lines
  induction lines with
  | nil => rfl
  | cons l rest ih =>
    by_cases hp : "PROGRESS:".toList.isPrefixOf l.toList = true
    · cases hj : parse (List.asString (l.toList.drop 9)) with
      | some j =>
        simp only [progressLines, hp, if_true, hj, forwardedSpec,
          List.takeWhile_cons, Bool.not_true, Option.isSome_some, Bool.false_or,
          List.filterMap_cons]
        rw [ih]
        rfl
      | none =>
        simp only [progressLines, hp, if_true, hj, forwardedSpec,
          List.takeWhile_cons, Bool.not_true, Option.isSome_none, Bool.false_or]
        rfl
    · have hpf : "PROGRESS:".toList.isPrefixOf l.toList = false :=
        Bool.not_eq_true _ ▸ eq_false_of_ne_true hp
      simp only [progressLines, hpf, Bool.false_eq_true, if_false, if_true,
        forwardedSpec, List.takeWhile_cons, Bool.not_false, Bool.true_or,
        List.filterMap_cons]
      rw [ih]
      rfl

theorem progressLines_mem_of_clean_pre (parse : String → Option Json) :
    ∀ (pre : List String) (post : List String) (l : String) (j : Json),
      (∀ x ∈ pre, "PROGRESS:".toList.isPrefixOf x.toList = true →
        (parse (List.asString (x.toList.drop 9))).isSome = true) →
      "PROGRESS:".toList.isPrefixOf l.toList = true →
      parse (List.asString (l.toList.drop 9)) = some j →
      j ∈ progressLines parse (pre ++ l :: post) := by
  intro pre
  induction pre with
  | nil =>
    intro post l j _ hp hj
    simp only [List.nil_append, progressLines, hp, if_true, hj]
    exact List.mem_cons_self j _
  | cons x pre ih =>
    intro post l j hclean hp hj
    have hclean' : ∀ y ∈ pre, "PROGRESS:".toList.isPrefixOf y.toList = true →
        (parse (List.asString (y.toList.drop 9))).isSome = true :=
      fun y hy => hclean y (List.mem_cons_of_mem x hy)
    rw [List.cons_append]
    by_cases hpx : "PROGRESS:".toList.isPrefixOf x.toList = true
    · have hsome := hclean x (List.mem_cons_self x pre) hpx
      cases hpjx : parse (List.asString (x.toList.drop 9)) with
      | none => rw [hpjx] at hsome; cases hsome
      | some j0 =>
        simp only [progressLines, hpx, if_true, hpjx]
        exact List.mem_cons_of_mem j0 (ih post l j hclean' hp hj)
    · simp only [progressLines, hpx, if_false]
      exact ih post l j hclean' hp hj

/-- C6 counterexample, refuting both halves of the claim as stated.
Forwarding: when a valid `PROGRESS:` line shares a `data` chunk with an
earlier malformed `PROGRESS:` line, the parse exception aborts the chunk's
line loop and the valid line is dropped — here the JSON parser accepts
exactly the text `ok`, the chunk carries `PROGRESS:bad` and then the valid
`PROGRESS:ok`, yet no `progress-update` event at all is emitted.  Renderer:
a `message` that is present but empty (`{percent:40, message:''}`) is falsy
under `if (data.message)`, so the progress text is NOT set to it, against
"the progress text to `message` whenever `message` is present". -/
theorem c6_progress_counterexample :
    ("PROGRESS:ok" ∈ chunkLines "PROGRESS:bad\nPROGRESS:ok") ∧
    ("PROGRESS:".toList.isPrefixOf ("PROGRESS:ok" : String).toList = true) ∧
    ((fun s => if s = "ok" then some Json.null else none)
        (List.asString (("PROGRESS:ok" : String).toList.drop 9)) = some Json.null) ∧
    stdoutEmissions (fun s => if s = "ok" then some Json.null else none)
        ["PROGRESS:bad\nPROGRESS:ok"] = [] ∧
    ((⟨some 40, some ""⟩ : ProgressData).message = some "" ∧
      (onProgressUpdate ⟨"0%", "start"⟩ ⟨some 40, some ""⟩).text = "start" ∧
      "start" ≠ "") :=
  ⟨by decide, by decide, rfl, rfl, rfl, rfl, by decide⟩

/-- C6 (amended): within each stdout `data` chunk, the forwarded
`progress-update` events are EXACTLY the parses of the `PROGRESS:` lines
preceding the first `PROGRESS:`-prefixed line whose JSON fails to parse
(all of them when none fails) — in particular a `PROGRESS:` line with valid
JSON is forwarded provided no EARLIER `PROGRESS:` line in the same chunk is
malformed; and on receipt the renderer sets the progress-bar width to
`percent + '%'` whenever `percent` is defined, and the progress text to
`message` whenever `message` is present and non-empty. -/
theorem c6_progress_forwarding_amended :
    (∀ (parse : String → Option Json) (chunks : List String),
      stdoutEmissions parse chunks =
        (chunks.map (fun c => forwardedSpec parse (chunkLines c))).flatten) ∧
    (∀ (parse : String → Option Json) (chunks : List String) (c : String)
        (pre post : List String) (l : String) (j : Json),
      c ∈ chunks →
      chunkLines c = pre ++ l :: post →
      (∀ x ∈ pre, "PROGRESS:".toList.isPrefixOf x.toList = true →
        (parse (List.asString (x.toList.drop 9))).isSome = true) →
      "PROGRESS:".toList.isPrefixOf l.toList = true →
      parse (List.asString (l.toList.drop 9)) = some j →
      j ∈ stdoutEmissions parse chunks) ∧
    (∀ (dom : ProgressDisplay) (data : ProgressData),
      (∀ p, data.percent = some p →
        (onProgressUpdate dom data).width = toString p ++ "%") ∧
      (∀ m, data.message = some m → m ≠ "" →
        (onProgressUpdate dom data).text = m)) := by
  refine ⟨?_, ?_, ?_⟩
  · intro parse chunks
    simp only [stdoutEmissions, progressLines_eq_forwarded]
  · intro parse chunks c pre post l j hc hsplit hclean hp hj
    have hmem : j ∈ progressLines parse (chunkLines c) := by
      rw [hsplit]
      exact progressLines_mem_of_clean_pre parse pre post l j hclean hp hj
    simp only [stdoutEmissions, List.mem_flatten]
    exact ⟨progressLines parse (chunkLines c), List.mem_map_of_mem _ hc, hmem⟩
  · intro dom data
    constructor
    · intro p hp
      cases hm : data.message with
      | none => simp [onProgressUpdate, hp, hm]
      | some m =>
        by_cases hme : m = "" <;> simp [onProgressUpdate, hp, hm, hme]
    · intro m hm hme
      cases hp : data.percent with
      | none => simp [onProgressUpdate, hp, hm, hme]
      | some p => simp [onProgressUpdate, hp, hm, hme]

/-- Witness for the amended C6: in the chunk `PROGRESS:ok\nPROGRESS:bad` the
valid line precedes the malformed one — its `pre` is empty and clean — so
its event IS forwarded; and a concrete progress payload updates both DOM
fields. -/
theorem c6_progress_forwarding_amended_witness :
    (("PROGRESS:ok\nPROGRESS:bad" ∈ (["PROGRESS:ok\nPROGRESS:bad"] : List String)) ∧
      (chunkLines "PROGRESS:ok\nPROGRESS:bad" =
        [] ++ "PROGRESS:ok" :: ["PROGRESS:bad"]) ∧
      (∀ x ∈ ([] : List String), "PROGRESS:".toList.isPrefixOf x.toList = true →
        ((fun s => if s = "ok" then some Json.null else none)
            (List.asString (x.toList.drop 9))).isSome = true) ∧
      ("PROGRESS:".toList.isPrefixOf ("PROGRESS:ok" : String).toList = true)) ∧
    (Json.null ∈ stdoutEmissions (fun s => if s = "ok" then some Json.null else none)
        ["PROGRESS:ok\nPROGRESS:bad"]) ∧
    ((onProgressUpdate ⟨"0%", "start"⟩ ⟨some 40, some "moving"⟩).width = "40%" ∧
      (onProgressUpdate ⟨"0%", "start"⟩ ⟨some 40, some "moving"⟩).text = "moving") :=
  ⟨⟨by decide, by decide, by decide, by decide⟩,
   c6_progress_forwarding_amended.2.1
     (fun s => if s = "ok" then some Json.null else none)
     ["PROGRESS:ok\nPROGRESS:bad"] "PROGRESS:ok\nPROGRESS:bad"
     [] ["PROGRESS:bad"] "PROGRESS:ok" Json.null
     (by decide) (by decide) (by decide) (by decide) rfl,
   (c6_progress_forwarding_amended.2.2 ⟨"0%", "start"⟩ ⟨some 40, some "moving"⟩).1 40 rfl,
   (c6_progress_forwarding_amended.2.2 ⟨"0%", "start"⟩ ⟨some 40, some "moving"⟩).2
     "moving" rfl (by decide)⟩

theorem firstCancel_ge (cancelled : Nat → Bool) :
    ∀ (n i : Nat), i ≤ firstCancel cancelled i n := by
  intro n
  induction n with
  | zero => intro i; simp [firstCancel]
  | succ n ih =>
    intro i
    by_cases hc : cancelled i = true
    · simp [firstCancel, hc]
    · have hcf : cancelled i = false := by simpa using hc
      simp only [firstCancel, hcf, Bool.false_eq_true, if_false]
      exact le_trans (Nat.le_succ i) (ih (i + 1))

/-- C5: in the modelled Executor loop, cancellation is cooperative and
checked between plan entries: the run applies exactly the plan prefix that
precedes the first fired cancellation check (the whole plan when none
fires), each applied entry is a whole `applyEntry` move — never a
half-applied one — and the entry at which the run stops is exactly the first
one whose between-entries check observed the signal. -/
theorem c5_cancellation_cooperative (fs : FS) (es : List MoveEntry)
    (cancelled : Nat → Bool) (i : Nat) :
    (execCancellable fs es cancelled i).2 =
      es.take (firstCancel cancelled i es.length - i) ∧
    (execCancellable fs es cancelled i).1 =
      (executeMoves fs (es.take (firstCancel cancelled i es.length - i))).1 ∧
    (∀ j, i ≤ j → j < firstCancel cancelled i es.length → cancelled j = false) ∧
    (firstCancel cancelled i es.length < i + es.length →
      cancelled (firstCancel cancelled i es.length) = true) := by
  induction es generalizing fs i with
  | nil =>
    simp only [List.length_nil, firstCancel, Nat.sub_self, List.take_zero]
    exact ⟨rfl, rfl, fun j hj1 hj2 => absurd hj1 (by omega),
      fun h => absurd h (by omega)⟩
  | cons e es ih =>
    by_cases hc : cancelled i = true
    · have hk : firstCancel cancelled i (e :: es).length = i := by
        simp [firstCancel, hc]
      rw [hk]
      simp only [Nat.sub_self, List.take_zero]
      refine ⟨?_, ?_, fun j hj1 hj2 => absurd hj1 (by omega), fun _ => hc⟩
      · simp [execCancellable, hc]
      · simp [execCancellable, executeMoves, hc]
    · have hcf : cancelled i = false := by simpa using hc
      obtain ⟨ih1, ih2, ih3, ih4⟩ := ih (applyEntry fs e) (i + 1)
      have hge : i + 1 ≤ firstCancel cancelled (i + 1) es.length :=
        firstCancel_ge cancelled es.length (i + 1)
      have hsub : firstCancel cancelled (i + 1) es.length - i =
          (firstCancel cancelled (i + 1) es.length - (i + 1)) + 1 := by omega
      simp only [List.length_cons, firstCancel, hcf, Bool.false_eq_true, if_false,
        execCancellable, hsub, List.take_succ_cons]
      refine ⟨by rw [ih1], ?_, ?_, ?_⟩
      · simp only [executeMoves]
        exact ih2
      · intro j hj1 hj2
        rcases Nat.eq_or_lt_of_le hj1 with rfl | hlt
        · exact hcf
        · exact ih3 j hlt hj2
      · intro h
        exact ih4 (by omega)

/-- Witness for C5: a two-entry plan whose cancellation signal fires at the
second between-entries check. -/
theorem c5_cancellation_cooperative_witness :
    (firstCancel (fun j => j == 1) 0
        ([⟨"r", "a", "X", "a"⟩, ⟨"r", "b", "X", "b"⟩] : List MoveEntry).length <
      0 + ([⟨"r", "a", "X", "a"⟩, ⟨"r", "b", "X", "b"⟩] : List MoveEntry).length) ∧
    (fun j => j == 1)
        (firstCancel (fun j => j == 1) 0
          ([⟨"r", "a", "X", "a"⟩, ⟨"r", "b", "X", "b"⟩] : List MoveEntry).length) = true :=
  ⟨by decide,
   (c5_cancellation_cooperative ⟨∅, ∅⟩
       [⟨"r", "a", "X", "a"⟩, ⟨"r", "b", "X", "b"⟩]
       (fun j => j == 1) 0).2.2.2 (by decide)⟩

theorem levAux_cons_cons (a b : Char) (as bs : List Char) :
    levAux (a :: as) (b :: bs) =
      if a = b then levAux as bs
      else 1 + min (levAux as (b :: bs)) (min (levAux (a :: as) bs) (levAux as bs)) :=
  rfl

theorem levAux_self : ∀ l : List Char, levAux l l = 0
  | [] => rfl
  | a :: as => by
    rw [levAux_cons_cons, if_pos rfl]
    exact levAux_self as

theorem levAux_eq_zero : ∀ {as bs : List Char}, levAux as bs = 0 → as = bs := by
  intro as
  induction as with
  | nil =>
    intro bs h
    cases bs with
    | nil => rfl
    | cons b bs => exact absurd h (by simp [levAux])
  | cons a as ih =>
    intro bs h
    cases bs with
    | nil => exact absurd h (by simp [levAux, lev1])
    | cons b bs =>
      rw [levAux_cons_cons] at h
      by_cases hab : a = b
      · rw [if_pos hab] at h
        rw [hab, ih h]
      · rw [if_neg hab] at h
        omega

theorem levSim_le_one (a b : String) : levSim a b ≤ 1 := by
  unfold levSim
  have h1 : (0 : Rat) ≤ (levAux a.toList b.toList : Rat) /
      ((max a.length b.length : Nat) : Rat) :=
    div_nonneg (by positivity) (by positivity)
  linarith

theorem levSim_eq_one_iff (a b : String) : levSim a b = 1 ↔ a = b := by
  constructor
  · intro h
    unfold levSim at h
    have h0 : (levAux a.toList b.toList : Rat) /
        ((max a.length b.length : Nat) : Rat) = 0 := by linarith
    rcases div_eq_zero_iff.mp h0 with hd | hm
    · have hz : levAux a.toList b.toList = 0 := by exact_mod_cast hd
      exact String.toList_inj.mp (levAux_eq_zero hz)
    · have hmz : max a.length b.length = 0 := by exact_mod_cast hm
      have ha : a.toList.length = 0 := by
        have : a.length = a.toList.length := rfl
        omega
      have hb : b.toList.length = 0 := by
        have : b.length = b.toList.length := rfl
        omega
      exact String.toList_inj.mp
        ((List.length_eq_zero.mp ha).trans (List.length_eq_zero.mp hb).symm)
  · rintro rfl
    unfold levSim
    rw [levAux_self]
    simp

theorem bestIdx_qualifies (threshold : Rat) :
    ∀ (scores : List Rat) (i : Nat) (sc : Rat),
      bestIdx threshold scores = some (i, sc) →
      scores[i]? = some sc ∧ joinOk threshold sc := by
  intro scores
  induction scores with
  | nil => intro i sc h; cases h
  | cons s rest ih =>
    intro i sc h
    cases hrest : bestIdx threshold rest with
    | none =>
      simp only [bestIdx, hrest] at h
      by_cases hq : joinOk threshold s
      · rw [if_pos hq] at h
        simp only [Option.some.injEq, Prod.mk.injEq] at h
        obtain ⟨rfl, rfl⟩ := h
        exact ⟨by simp, hq⟩
      · rw [if_neg hq] at h
        cases h
    | some jb =>
      obtain ⟨j, best⟩ := jb
      simp only [bestIdx, hrest] at h
      by_cases hq : joinOk threshold s ∧ best ≤ s
      · rw [if_pos hq] at h
        simp only [Option.some.injEq, Prod.mk.injEq] at h
        obtain ⟨rfl, rfl⟩ := h
        exact ⟨by simp, hq.1⟩
      · rw [if_neg hq] at h
        simp only [Option.some.injEq, Prod.mk.injEq] at h
        obtain ⟨rfl, rfl⟩ := h
        obtain ⟨h1, h2⟩ := ih j best hrest
        exact ⟨by simpa using h1, h2⟩

theorem addToCluster_mem (s : String) :
    ∀ (cs : List SimCluster) (i : Nat) (c' : SimCluster),
      c' ∈ addToCluster s cs i →
      c' ∈ cs ∨ ∃ c, cs[i]? = some c ∧ c' = (c.1, c.2 ++ [s]) := by
  intro cs
  induction cs with
  | nil => intro i c' h; cases h
  | cons c cs ih =>
    intro i c' h
    cases i with
    | zero =>
      rw [addToCluster] at h
      rcases List.mem_cons.mp h with rfl | hmem
      · right; exact ⟨c, by simp, rfl⟩
      · left; exact List.mem_cons_of_mem c hmem
    | succ n =>
      rw [addToCluster] at h
      rcases List.mem_cons.mp h with rfl | hmem
      · left; exact List.mem_cons_self c' cs
      · rcases ih n c' hmem with h1 | ⟨c0, hc0, hc'⟩
        · left; exact List.mem_cons_of_mem c h1
        · right; exact ⟨c0, by simpa using hc0, hc'⟩

/-- Every member of every cluster equals its cluster's representative. -/
def clustersUniform (cs : List SimCluster) : Prop :=
  ∀ c ∈ cs, ∀ m ∈ c.2, m = c.1

theorem insertStem_uniform {sim : String → String → Rat}
    (hle : ∀ a b, sim a b ≤ 1) (heq : ∀ a b, sim a b = 1 → a = b)
    {cs : List SimCluster} (hcs : clustersUniform cs) (s : String) :
    clustersUniform (insertStem sim 100 cs s) := by
  unfold insertStem
  cases hb : bestIdx 100 (cs.map (fun c => sim s c.1)) with
  | none =>
    intro c' hc' m hm
    rcases List.mem_append.mp hc' with h1 | h2
    · exact hcs c' h1 m hm
    · rw [List.mem_singleton] at h2
      subst h2
      simpa using hm
  | some p =>
    obtain ⟨i, sc⟩ := p
    obtain ⟨hget, hq⟩ := bestIdx_qualifies 100 _ i sc hb
    rw [List.getElem?_map] at hget
    cases hc0 : cs[i]? with
    | none => rw [hc0] at hget; cases hget
    | some c0 =>
      rw [hc0] at hget
      simp only [Option.map_some', Option.some.injEq] at hget
      have hsc1 : sc = 1 := by
        have hup : sc ≤ 1 := hget ▸ hle s c0.1
        have hlo : (1 : Rat) ≤ sc := by
          unfold joinOk at hq
          linarith
        exact le_antisymm hup hlo
      have hseq : s = c0.1 := heq s c0.1 (hget.symm ▸ hsc1)
      intro c' hc' m hm
      rcases addToCluster_mem s cs i c' hc' with h1 | ⟨c1, hc1, rfl⟩
      · exact hcs c' h1 m hm
      · have hcc : c1 = c0 := by
          rw [hc1] at hc0
          exact Option.some.inj hc0
        subst hcc
        rcases List.mem_append.mp hm with hm1 | hm2
        · exact hcs c1 (List.getElem?_mem hc1) m hm1
        · rw [List.mem_singleton] at hm2
          subst hm2
          exact hseq.trans rfl

theorem clusterStems_uniform {sim : String → String → Rat}
    (hle : ∀ a b, sim a b ≤ 1) (heq : ∀ a b, sim a b = 1 → a = b)
    (stems : List String) :
    clustersUniform (clusterStems sim 100 stems) := by
  suffices h : ∀ cs, clustersUniform cs →
      clustersUniform (stems.foldl (insertStem sim 100) cs) from
    h [] (fun c hc => absurd hc (List.not_mem_nil c))
  induction stems with
  | nil => intro cs h; exact h
  | cons s rest ih =>
    intro cs h
    exact ih _ (insertStem_uniform hle heq h s)

theorem levSim_ac_ab : levSim "ac" "ab" = 1 / 2 := by
  have hlev : levAux "ac".toList "ab".toList = 1 := by decide
  have hmax : max ("ac" : String).length ("ab" : String).length = 2 := by decide
  unfold levSim
  rw [hlev, hmax]
  norm_num

theorem bestIdx_singleton (threshold score : Rat) :
    bestIdx threshold [score] =
      if joinOk threshold score then some (0, score) else none :=
  rfl

theorem clusterStems_ab_ac_50 :
    clusterStems levSim 50 ["ab", "ac"] = [("ab", ["ab", "ac"])] := by
  have hj : joinOk 50 ((1 : Rat) / 2) := by unfold joinOk; norm_num
  unfold clusterStems
  simp only [List.foldl]
  have s1 : insertStem levSim 50 [] "ab" = [("ab", ["ab"])] := rfl
  rw [s1]
  unfold insertStem
  simp only [List.map_cons, List.map_nil, levSim_ac_ab]
  rw [bestIdx_singleton, if_pos hj]
  rfl

theorem clusterStems_ab_ac_100 :
    clusterStems levSim 100 ["ab", "ac"] = [("ab", ["ab"]), ("ac", ["ac"])] := by
  have hj : ¬joinOk 100 ((1 : Rat) / 2) := by unfold joinOk; norm_num
  unfold clusterStems
  simp only [List.foldl]
  have s1 : insertStem levSim 100 [] "ab" = [("ab", ["ab"])] := rfl
  rw [s1]
  unfold insertStem
  simp only [List.map_cons, List.map_nil, levSim_ac_ab]
  rw [bestIdx_singleton, if_neg hj]
  rfl

/-- C8 counterexample: with the Levenshtein score and the stems `ab`, `ac`
(similarity 50), raising the threshold from 50 to 100 SPLITS one group into
two — increasing the threshold produced strictly more groups, refuting the
claim that it "can only merge clusters into fewer, not more, groups". -/
theorem c8_threshold_counterexample :
    (50 : Rat) ≤ 100 ∧
    (clusterStems levSim 50 ["ab", "ac"]).length = 1 ∧
    (clusterStems levSim 100 ["ab", "ac"]).length = 2 :=
  ⟨by norm_num, by rw [clusterStems_ab_ac_50]; rfl, by rw [clusterStems_ab_ac_100]; rfl⟩

/-- C8 (amended): raising the threshold only makes the join test stricter —
any stem/representative score that qualifies at a higher threshold qualifies
at every lower one (so a higher threshold can only remove join
opportunities, which may split groups but in the greedy algorithm does not
bound the group count monotonically in either direction) — and at threshold
100 every resulting cluster contains only literally identical stems, for any
similarity score that is at most 1 and equals 1 exactly on identical
stems. -/
theorem c8_threshold_amended :
    (∀ t1 t2 score : Rat, t1 ≤ t2 → joinOk t2 score → joinOk t1 score) ∧
    (∀ sim : String → String → Rat,
      (∀ a b, sim a b ≤ 1) → (∀ a b, sim a b = 1 → a = b) →
      ∀ (stems : List String) (c : SimCluster),
        c ∈ clusterStems sim 100 stems → ∀ m ∈ c.2, m = c.1) := by
  constructor
  · intro t1 t2 score h12 h
    exact le_trans h12 h
  · intro sim hle heq stems c hc m hm
    exact clusterStems_uniform hle heq stems c hc m hm

theorem levSim_ab_ab : levSim "ab" "ab" = 1 :=
  (levSim_eq_one_iff "ab" "ab").mpr rfl

theorem clusterStems_ab_ab_100 :
    clusterStems levSim 100 ["ab", "ab"] = [("ab", ["ab", "ab"])] := by
  have hj : joinOk 100 (levSim "ab" "ab") := by
    rw [levSim_ab_ab]; unfold joinOk; norm_num
  unfold clusterStems
  simp only [List.foldl]
  have s1 : insertStem levSim 100 [] "ab" = [("ab", ["ab"])] := rfl
  rw [s1]
  unfold insertStem
  simp only [List.map_cons, List.map_nil]
  rw [bestIdx_singleton, if_pos hj]
  rfl

/-- Witness for the amended C8: the antitone join test at concrete
thresholds, and the threshold-100 clustering of `["ab", "ab"]` under the
Levenshtein score, whose single cluster carries only identical stems. -/
theorem c8_threshold_amended_witness :
    (((50 : Rat) ≤ 80) ∧ joinOk 80 1 ∧ joinOk 50 1) ∧
    ((("ab", ["ab", "ab"]) ∈ clusterStems levSim 100 ["ab", "ab"]) ∧
      ("ab" ∈ (("ab", ["ab", "ab"]) : SimCluster).2) ∧
      ∀ m ∈ (("ab", ["ab", "ab"]) : SimCluster).2,
        m = (("ab", ["ab", "ab"]) : SimCluster).1) :=
  ⟨⟨by norm_num, by unfold joinOk; norm_num,
    c8_threshold_amended.1 50 80 1 (by norm_num) (by unfold joinOk; norm_num)⟩,
   by rw [clusterStems_ab_ab_100]; exact List.mem_singleton_self _,
   by simp,
   c8_threshold_amended.2 levSim levSim_le_one
     (fun a b h => (levSim_eq_one_iff a b).mp h) ["ab", "ab"] ("ab", ["ab", "ab"])
     (by rw [clusterStems_ab_ab_100]; exact List.mem_singleton_self _)⟩

theorem FS.eq_of {a b : FS} (h1 : a.files = b.files) (h2 : a.dirs = b.dirs) : a = b := by
  cases a
  cases b
  cases h1
  cases h2
  rfl

theorem foldl_revert_dirs (l : List MoveEntry) :
    ∀ fs : FS, (l.foldl revertEntry fs).dirs = fs.dirs := by
  induction l with
  | nil => intro fs; rfl
  | cons e es ih =>
    intro fs
    rw [List.foldl_cons, ih]
    rfl

theorem exec_revert_files : ∀ (log : List MoveEntry) (fs : FS),
    (∀ e ∈ log, e.src ∈ fs.files) →
    (∀ e ∈ log, e.dst ∉ fs.files) →
    (∀ e ∈ log, ∀ e' ∈ log, e.dst ≠ e'.src) →
    log.Pairwise (fun a b => a.src ≠ b.src) →
    log.Pairwise (fun a b => a.dst ≠ b.dst) →
    (log.reverse.foldl revertEntry (executeMoves fs log).1).files = fs.files := by
  intro log
  induction log with
  | nil => intro fs _ _ _ _ _; rfl
  | cons e es ih =>
    intro fs hs hd hds hps hpd
    have hexec1 : (executeMoves fs (e :: es)).1 =
        (executeMoves (applyEntry fs e) es).1 := rfl
    rw [hexec1, List.reverse_cons, List.foldl_append]
    obtain ⟨hps1, hps2⟩ := List.pairwise_cons.mp hps
    obtain ⟨hpd1, hpd2⟩ := List.pairwise_cons.mp hpd
    have hfs' : (es.reverse.foldl revertEntry
        (executeMoves (applyEntry fs e) es).1).files = (applyEntry fs e).files := by
      apply ih (applyEntry fs e)
      · intro e' he'
        have h1 : e'.src ∈ fs.files := hs e' (List.mem_cons_of_mem e he')
        have h2 : e'.src ≠ e.src := (hps1 e' he').symm
        exact Finset.mem_insert_of_mem (Finset.mem_erase.mpr ⟨h2, h1⟩)
      · intro e' he' hmem
        rcases Finset.mem_insert.mp hmem with h1 | h2
        · exact (hpd1 e' he') h1.symm
        · exact hd e' (List.mem_cons_of_mem e he') (Finset.mem_of_mem_erase h2)
      · intro a ha b hb
        exact hds a (List.mem_cons_of_mem e ha) b (List.mem_cons_of_mem e hb)
      · exact hps2
      · exact hpd2
    show (revertEntry _ e).files = fs.files
    simp only [revertEntry]
    rw [hfs']
    simp only [applyEntry]
    have hnotin : e.dst ∉ fs.files.erase e.src := fun hmem =>
      hd e (List.mem_cons_self e es) (Finset.mem_of_mem_erase hmem)
    rw [Finset.erase_insert hnotin, Finset.insert_erase (hs e (List.mem_cons_self e es))]

theorem exec_created_not_in_dirs : ∀ (log : List MoveEntry) (fs : FS) (d : String),
    d ∈ (executeMoves fs log).2 → d ∉ fs.dirs := by
  intro log
  induction log with
  | nil => intro fs d h; cases h
  | cons e es ih =>
    intro fs d h
    simp only [executeMoves] at h
    rcases List.mem_append.mp h with h1 | h2
    · by_cases hdf : e.dstFolder ∈ fs.dirs
      · rw [if_pos hdf] at h1; cases h1
      · rw [if_neg hdf] at h1
        rw [List.mem_singleton] at h1
        subst h1
        exact hdf
    · exact fun hdd =>
        ih (applyEntry fs e) d h2 (Finset.mem_insert_of_mem hdd)

theorem exec_dirs_eq : ∀ (log : List MoveEntry) (fs : FS),
    (executeMoves fs log).1.dirs = fs.dirs ∪ (executeMoves fs log).2.toFinset := by
  intro log
  induction log with
  | nil => intro fs; simp [executeMoves]
  | cons e es ih =>
    intro fs
    simp only [executeMoves]
    rw [ih (applyEntry fs e)]
    by_cases hdf : e.dstFolder ∈ fs.dirs
    · rw [if_pos hdf]
      simp [applyEntry, Finset.insert_eq_self.mpr hdf]
    · rw [if_neg hdf]
      simp [applyEntry, Finset.insert_union, Finset.union_insert]

theorem exec_created_sub : ∀ (log : List MoveEntry) (fs : FS) (d : String),
    d ∈ (executeMoves fs log).2 → ∃ e ∈ log, e.dstFolder = d := by
  intro log
  induction log with
  | nil => intro fs d h; cases h
  | cons e es ih =>
    intro fs d h
    simp only [executeMoves] at h
    rcases List.mem_append.mp h with h1 | h2
    · by_cases hdf : e.dstFolder ∈ fs.dirs
      · rw [if_pos hdf] at h1; cases h1
      · rw [if_neg hdf] at h1
        rw [List.mem_singleton] at h1
        exact ⟨e, List.mem_cons_self e es, h1.symm⟩
    · obtain ⟨e', he', hd'⟩ := ih (applyEntry fs e) d h2
      exact ⟨e', List.mem_cons_of_mem e he', hd'⟩

/-- C2: executing a plan and then undoing its log restores the filesystem
exactly — every moved file returns to its original source path, every folder
the execute created (all of them empty after the moves are undone) is
removed, and no file rests outside its original location — whenever the plan
moves distinct existing files to distinct fresh destinations (the Plan
invariant of spec section 3) and folders the execute creates contain no
pre-existing files. -/
theorem c2_execute_undo_roundtrip (fs : FS) (log : List MoveEntry)
    (hs : ∀ e ∈ log, e.src ∈ fs.files)
    (hd : ∀ e ∈ log, e.dst ∉ fs.files)
    (hds : ∀ e ∈ log, ∀ e' ∈ log, e.dst ≠ e'.src)
    (hps : log.Pairwise (fun a b => a.src ≠ b.src))
    (hpd : log.Pairwise (fun a b => a.dst ≠ b.dst))
    (hnew : ∀ e ∈ log, e.dstFolder ∉ fs.dirs →
      fs.files.filter (fun p => p.1 = e.dstFolder) = ∅) :
    undoMoves (executeMoves fs log).1 log (executeMoves fs log).2 = fs := by
  have hfiles : (log.reverse.foldl revertEntry (executeMoves fs log).1).files
      = fs.files :=
    exec_revert_files log fs hs hd hds hps hpd
  have hdirs1 : (log.reverse.foldl revertEntry (executeMoves fs log).1).dirs
      = (executeMoves fs log).1.dirs :=
    foldl_revert_dirs log.reverse _
  apply FS.eq_of
  · exact hfiles
  · show ((log.reverse.foldl revertEntry (executeMoves fs log).1).dirs.filter
        (fun d => ¬(d ∈ (executeMoves fs log).2 ∧
          (log.reverse.foldl revertEntry (executeMoves fs log).1).files.filter
            (fun p => p.1 = d) = ∅))) = fs.dirs
    apply Finset.ext
    intro d
    rw [Finset.mem_filter]
    constructor
    · rintro ⟨hmem, hkeep⟩
      rw [hdirs1, exec_dirs_eq] at hmem
      rcases Finset.mem_union.mp hmem with h1 | h2
      · exact h1
      · exfalso
        apply hkeep
        have hdc : d ∈ (executeMoves fs log).2 := List.mem_toFinset.mp h2
        refine ⟨hdc, ?_⟩
        rw [hfiles]
        obtain ⟨e, he, rfl⟩ := exec_created_sub log fs d hdc
        exact hnew e he (exec_created_not_in_dirs log fs _ hdc)
    · intro hdmem
      refine ⟨?_, ?_⟩
      · rw [hdirs1, exec_dirs_eq]
        exact Finset.mem_union_left _ hdmem
      · rintro ⟨hdc, _⟩
        exact exec_created_not_in_dirs log fs d hdc hdmem

/-- Witness for C2: one file `root/a.txt` moved into a freshly created
`Images` folder and then undone, restoring the original filesystem. -/
theorem c2_execute_undo_roundtrip_witness :
    (∀ e ∈ ([⟨"root", "a.txt", "Images", "a.txt"⟩] : List MoveEntry),
      MoveEntry.src e ∈ ({("root", "a.txt")} : Finset (String × String))) ∧
    undoMoves
        (executeMoves ⟨{("root", "a.txt")}, {"root"}⟩
          [⟨"root", "a.txt", "Images", "a.txt"⟩]).1
        [⟨"root", "a.txt", "Images", "a.txt"⟩]
        (executeMoves ⟨{("root", "a.txt")}, {"root"}⟩
          [⟨"root", "a.txt", "Images", "a.txt"⟩]).2
      = ⟨{("root", "a.txt")}, {"root"}⟩ :=
  ⟨by decide,
   c2_execute_undo_roundtrip ⟨{("root", "a.txt")}, {"root"}⟩
     [⟨"root", "a.txt", "Images", "a.txt"⟩]
     (by decide) (by decide) (by decide) (by decide) (by decide) (by decide)⟩
